import Mathlib

/-!
Macro playback scheduler — shallow embedding

A shallow embedding of the macro playback scheduler of `src/Main.py`
(class `MacroPlayerGUI`), covering the state variables

  `macro_actions`, `macro_index`, `macro_running`, `macro_paused`,
  `macro_loop`, `loop_toggle` (its checked state), `held_keys`,
  `macro_timer` (armed-or-not, with the programmed interval),

the notifier emissions (`self.notifier.error_signal.emit`), and the
key-injector calls (`keyboard.press` / `keyboard.release` /
`keyboard.press_and_release`), logged as a trace.

The operations embedded are `play_macro`, `pause_macro`, `stop_macro`,
`release_all_keys`, `start_macro_timer`, `execute_macro_step`, the loop
toggle, window hide (`toggle_visibility`, which releases held keys) and
`closeEvent`.  Lean identifiers avoid the suffix `_macro`, so the Python
methods `play_macro` / `pause_macro` / `stop_macro` are called
`play_macro_op` / `pause_macro_op` / `stop_macro_op` here; everything
else keeps the source name.

Injector calls can raise; a call's outcome is given by an `Oracle`
(`none` = success, `some e` = the exception's message), so theorems
quantify over all failure behaviours.
-/

namespace Maina

/-- Python `str.strip()`: leading and trailing whitespace removed.
(Defined over the character list so the kernel can evaluate it.) -/
def pyStrip (t : String) : String :=
  String.mk
    (((t.data.dropWhile Char.isWhitespace).reverse.dropWhile
        Char.isWhitespace).reverse)

/-- Python `str.lower()` on the key identifiers the scheduler sees. -/
def pyLower (t : String) : String := String.mk (t.data.map Char.toLower)

/-- The injector operations of the `keyboard` module used by the scheduler. -/
inductive InjOp where
  | press
  | release
  | pressAndRelease
deriving DecidableEq, Repr

/-- One decoded step of a macro file, as the scheduler reads it
(`execute_macro_step`, lines 1009-1045 of `src/Main.py`):
`hasInfo` is whether the dict has an `"info"` key (such steps are
skipped); `act` is the raw `"action"` field after `str(...)` (absent =
`none`; the source defaults it to `"send"`); `key` is the raw `"key"`
field after `str(...)` (absent = `none`, defaulted to `""`); `delay` is
the raw `"delay"` field: `none` = absent (source default `0.1`
seconds), `some none` = present but `float(...)` raises, `some (some d)`
= present and `float(...)` succeeds, with `d = int(float(v) * 1000)`
the resulting whole milliseconds (the float arithmetic itself lives
outside the model; the model receives its integer result). -/
structure Action where
  hasInfo : Bool
  act : Option String
  key : Option String
  delay : Option (Option Int)
deriving DecidableEq, Repr

/-- Embeds `str(action.get("action", "send")).lower()`. -/
def actOf (a : Action) : String := pyLower (a.act.getD "send")

/-- Embeds `str(action.get("key", "")).strip().lower()`. -/
def keyOf (a : Action) : String := pyLower (pyStrip (a.key.getD ""))

/-- Embeds `int(float(action.get("delay", 0.1)) * 1000)` with the `except`
fallback `delay = 100` when the field is present but unparsable
(lines 1016-1019 and 1003-1006 of `src/Main.py`).  An absent field
takes the default `0.1`, and `int(float(0.1) * 1000) = 100` in Python
(`0.1 * 1000` is `100.00000000000001`, truncated to `100`). -/
def delayMs (a : Action) : Int :=
  match a.delay with
  | none => 100
  | some none => 100
  | some (some d) => d

/-- Outcome of each injector call: `none` = success, `some e` = the call
raises an exception whose string form is `e`. -/
def Oracle : Type := InjOp → String → Option String

/-- The always-succeeding injector. -/
def okOracle : Oracle := fun _ _ => none

/-- The scheduler state of `MacroPlayerGUI` (fields initialised at
lines 442-450 of `src/Main.py`), together with two observation traces:
`notes`, the strings emitted through `self.notifier.error_signal`, and
`injCalls`, the injector calls attempted (including failing ones).
`timer` is `some d` when `macro_timer` is armed with interval `d`
milliseconds, `none` when stopped.  `heldKeys` models the Python set
`held_keys` as a duplicate-free list (insertion order fixes the
iteration order, which the source leaves unspecified). -/
structure SchedState where
  actions : List Action
  index : Nat
  running : Bool
  paused : Bool
  macroLoop : Bool
  loopChecked : Bool
  heldKeys : List String
  timer : Option Int
  notes : List String
  injCalls : List (InjOp × String)
deriving DecidableEq, Repr

/-- The initial state: empty action list, index 0, not running, not
paused, `macro_loop = False`, loop toggle unchecked
(`self.loop_toggle.setChecked(False)`, line 390), no held keys, timer
stopped. -/
def init : SchedState :=
  { actions := [], index := 0, running := false, paused := false,
    macroLoop := false, loopChecked := false, heldKeys := [],
    timer := none, notes := [], injCalls := [] }

/-- Embeds `self.held_keys.add(key)` (Python set add). -/
def heldAdd (ks : List String) (k : String) : List String :=
  if k ∈ ks then ks else ks ++ [k]

/-- Embeds `self.held_keys.discard(key)` (Python set discard). -/
def heldDiscard (ks : List String) (k : String) : List String := ks.erase k

/-- Emit one message through the notifier. -/
def emit (s : SchedState) (m : String) : SchedState :=
  { s with notes := s.notes ++ [m] }

/-- Embeds `release_all_keys` (lines 657-663): for every held key, call
injector release inside `try ... except Exception: pass` — the call is
attempted and any failure is ignored, so the state change is the same
whatever the oracle answers — then `self.held_keys.clear()`. -/
def release_all_keys (s : SchedState) : SchedState :=
  { s with
    injCalls := s.injCalls ++ s.heldKeys.map (fun k => (InjOp.release, k)),
    heldKeys := [] }

/-- Embeds `stop_macro` (lines 601-611): clear the running/paused flags, stop
the timer, reset the index, drop the action list, then release all held
keys.  (The status-bar message is display only and is not modelled.) -/
def stop_macro_op (s : SchedState) : SchedState :=
  release_all_keys
    { s with running := false, paused := false, timer := none,
             index := 0, actions := [] }

/-- Embeds `pause_macro` (lines 593-599): only when `macro_running`, set
`macro_paused`, stop the timer and release all held keys; otherwise do
nothing. -/
def pause_macro_op (s : SchedState) : SchedState :=
  if s.running then
    release_all_keys { s with paused := true, timer := none }
  else s

/-- Embeds `start_macro_timer` (lines 1001-1007): when the action list is
non-empty, the macro is running and not paused, arm the timer with the
current step's delay; an out-of-range index raises inside the `try` and
falls back to 100ms. -/
def start_macro_timer (s : SchedState) : SchedState :=
  if !s.actions.isEmpty && s.running && !s.paused then
    { s with
      timer := some (match s.actions.get? s.index with
                     | some a => delayMs a
                     | none => 100) }
  else s

/-- What play loads: `json.load` raised (`failure e`), parsed but not a
list (`notAList`), or a decoded list of actions (`ok acts`, possibly
empty). -/
inductive LoadResult where
  | failure : String → LoadResult
  | notAList : LoadResult
  | ok : List Action → LoadResult
deriving DecidableEq, Repr

/-- Embeds `play_macro` (lines 555-591).  If running and paused: resume (clear
`macro_paused`, restart the timer).  If running and not paused: return
(no-op).  Otherwise, with a macro file selected (`load = some lr`,
`none` models no usable selection): `stop_macro()`, snapshot
`macro_loop` from the loop toggle, then load; a load failure, a
non-list, or an empty list each emit one notifier message and return;
a non-empty list installs the session (`index = 0`,
`macro_running = True`, `macro_paused = False`) and starts the timer. -/
def play_macro_op (load : Option LoadResult) (s : SchedState) : SchedState :=
  if s.running && s.paused then
    start_macro_timer { s with paused := false }
  else if s.running && !s.paused then s
  else
    match load with
    | none => s
    | some lr =>
      let s1 := stop_macro_op s
      let s2 := { s1 with macroLoop := s1.loopChecked }
      match lr with
      | LoadResult.failure e => emit s2 ("Failed to load macro: " ++ e)
      | LoadResult.notAList => emit s2 "Macro file is not a list of actions."
      | LoadResult.ok acts =>
        if acts.isEmpty then emit s2 "No actions found in macro."
        else
          start_macro_timer
            { s2 with actions := acts, index := 0,
                      running := true, paused := false }

/-- Toggling the loop control: only the toggle's checked state changes
(`update_loop_checkbox_style` is display only); in particular the
`macro_loop` snapshot is untouched. -/
def setLoop (b : Bool) (s : SchedState) : SchedState :=
  { s with loopChecked := b }

/-- The warning for an empty or missing key, with `i` the 0-based index
of the offending step (the source formats `self.macro_index + 1`). -/
def emptyKeyMsg (i : Nat) : String :=
  "Macro step error: Step " ++ toString (i + 1) ++
    " has an empty or missing key, skipping..."

/-- The dispatch-by-kind block of `execute_macro_step`
(lines 1025-1035), `try`-wrapped: the matching injector call is
attempted (logged in `injCalls`); on success a `press` adds the key to
`held_keys` and a `release` discards it (`send` leaves it alone); on
failure the `except` emits `"Macro step error: {e}"` and the `held_keys`
update of that branch does not happen.  An unrecognised action string
matches no branch and does nothing. -/
def dispatch (o : Oracle) (act key : String) (s : SchedState) : SchedState :=
  if act = "press" then
    let s1 := { s with injCalls := s.injCalls ++ [(InjOp.press, key)] }
    match o InjOp.press key with
    | none => { s1 with heldKeys := heldAdd s1.heldKeys key }
    | some e => emit s1 ("Macro step error: " ++ e)
  else if act = "release" then
    let s1 := { s with injCalls := s.injCalls ++ [(InjOp.release, key)] }
    match o InjOp.release key with
    | none => { s1 with heldKeys := heldDiscard s1.heldKeys key }
    | some e => emit s1 ("Macro step error: " ++ e)
  else if act = "send" then
    let s1 := { s with injCalls := s.injCalls ++ [(InjOp.pressAndRelease, key)] }
    match o InjOp.pressAndRelease key with
    | none => s1
    | some e => emit s1 ("Macro step error: " ++ e)
  else s

/-- The `while self.macro_running and self.macro_index < len(...)` loop
of `execute_macro_step` (lines 1010-1038), fuel-indexed.  Each
iteration either skips an `"info"` or empty-key step (index + 1,
`continue`) or executes one real step and `return`s (first component
`true`).  Every iteration that does not return increments the index and
leaves the action list untouched, so fuel `len(actions) - index`
(used by `execute_macro_step` below) is exactly enough: at fuel 0 the
index has reached the length and the loop guard is false.  `dispatch`
does not change the index, so `index := s.index + 1` is the source's
`self.macro_index += 1`.  The guard `self.macro_running and
self.macro_index < len(self.macro_actions)` is rendered as the lookup
`actions.get? index` (which succeeds exactly when `index` is in range)
followed by the running test; both conjuncts are pure, so the order is
immaterial. -/
def runLoopF (o : Oracle) : Nat → SchedState → Bool × SchedState
  | 0, s => (false, s)
  | fuel + 1, s =>
    match s.actions.get? s.index with
    | none => (false, s)
    | some a =>
      if s.running then
        if a.hasInfo then
          runLoopF o fuel { s with index := s.index + 1 }
        else if keyOf a = "" then
          runLoopF o fuel
            { s with index := s.index + 1,
                     notes := s.notes ++ [emptyKeyMsg s.index] }
        else
          (true, { dispatch o (actOf a) (keyOf a) s with
                   index := s.index + 1, timer := some (delayMs a) })
      else (false, s)

/-- The tail of `execute_macro_step` (lines 1039-1045), reached only
when the while loop exits without returning: if the index has reached
the end, loop-wrap (`index = 0`, restart the timer) when the loop
toggle is *currently* checked, else `stop_macro()`. -/
def after_loop (s : SchedState) : SchedState :=
  if s.actions.length ≤ s.index then
    if s.loopChecked then start_macro_timer { s with index := 0 }
    else stop_macro_op s
  else s

/-- Embeds `execute_macro_step` (lines 1009-1045): the timer-fire handler. -/
def execute_macro_step (o : Oracle) (s : SchedState) : SchedState :=
  match runLoopF o (s.actions.length - s.index) s with
  | (true, s1) => s1
  | (false, s1) => after_loop s1

/-- Embeds `toggle_visibility` hiding the window (lines 531-535): releases all
held keys; `closeEvent` (lines 665-669) is `stop_macro` followed by
`release_all_keys`. -/
def close_event (s : SchedState) : SchedState :=
  release_all_keys (stop_macro_op s)

/-- The states the scheduler can reach from start-up under its event
surface: the three control slots (with any selection/load outcome for
play), a timer fire (possible only while the timer is armed — `pause`
and `stop` stop the timer, and Qt delivers no timeout for a stopped
timer), toggling the loop control, hiding the window, and closing it.
The fire event carries an arbitrary injector-failure oracle. -/
inductive Reachable : SchedState → Prop where
  | init : Reachable init
  | play (l : Option LoadResult) (s : SchedState) (h : Reachable s) :
      Reachable (play_macro_op l s)
  | pause (s : SchedState) (h : Reachable s) : Reachable (pause_macro_op s)
  | stop (s : SchedState) (h : Reachable s) : Reachable (stop_macro_op s)
  | fire (o : Oracle) (s : SchedState) (d : Int) (h : Reachable s)
      (ht : s.timer = some d) : Reachable (execute_macro_step o s)
  | toggleLoop (b : Bool) (s : SchedState) (h : Reachable s) :
      Reachable (setLoop b s)
  | hideWin (s : SchedState) (h : Reachable s) :
      Reachable (release_all_keys s)
  | closeWin (s : SchedState) (h : Reachable s) :
      Reachable (close_event s)


/-! ## Frame and unfolding lemmas -/

/-- The dispatch block only touches `heldKeys`, `notes` and `injCalls`. -/
theorem dispatch_frame (o : Oracle) (act key : String) (s : SchedState) :
    (dispatch o act key s).actions = s.actions ∧
    (dispatch o act key s).index = s.index ∧
    (dispatch o act key s).running = s.running ∧
    (dispatch o act key s).paused = s.paused ∧
    (dispatch o act key s).timer = s.timer ∧
    (dispatch o act key s).loopChecked = s.loopChecked ∧
    (dispatch o act key s).macroLoop = s.macroLoop := by
  unfold dispatch emit
  by_cases h1 : act = "press"
  · simp [h1]; cases o InjOp.press key <;> simp
  · by_cases h2 : act = "release"
    · simp [h1, h2]; cases o InjOp.release key <;> simp
    · by_cases h3 : act = "send"
      · simp [h1, h2, h3]; cases o InjOp.pressAndRelease key <;> simp
      · simp [h1, h2, h3]

/-- Loop-guard false: index out of range. -/
theorem runLoopF_stop_idx (o : Oracle) (fuel : Nat) (s : SchedState)
    (h : s.actions.get? s.index = none) :
    runLoopF o (fuel + 1) s = (false, s) := by
  conv_lhs => rw [runLoopF]
  rw [h]

/-- Loop-guard false: not running. -/
theorem runLoopF_stop_run (o : Oracle) (fuel : Nat) (s : SchedState)
    (a : Action) (h : s.actions.get? s.index = some a)
    (hr : s.running = false) :
    runLoopF o (fuel + 1) s = (false, s) := by
  conv_lhs => rw [runLoopF]
  rw [h]
  simp [hr]

/-- An `"info"` step is skipped in place. -/
theorem runLoopF_info (o : Oracle) (fuel : Nat) (s : SchedState)
    (a : Action) (h : s.actions.get? s.index = some a)
    (hr : s.running = true) (hi : a.hasInfo = true) :
    runLoopF o (fuel + 1) s =
      runLoopF o fuel { s with index := s.index + 1 } := by
  conv_lhs => rw [runLoopF]
  rw [h]
  simp [hr, hi]

/-- An empty-key step emits one warning and is skipped. -/
theorem runLoopF_emptykey (o : Oracle) (fuel : Nat) (s : SchedState)
    (a : Action) (h : s.actions.get? s.index = some a)
    (hr : s.running = true) (hi : a.hasInfo = false)
    (hk : keyOf a = "") :
    runLoopF o (fuel + 1) s =
      runLoopF o fuel
        { s with index := s.index + 1,
                 notes := s.notes ++ [emptyKeyMsg s.index] } := by
  conv_lhs => rw [runLoopF]
  rw [h]
  simp [hr, hi, hk]

/-- A real step dispatches to the injector, advances the index, arms
the timer with the current step's delay, and returns. -/
theorem runLoopF_real (o : Oracle) (fuel : Nat) (s : SchedState)
    (a : Action) (h : s.actions.get? s.index = some a)
    (hr : s.running = true) (hi : a.hasInfo = false)
    (hk : ¬ keyOf a = "") :
    runLoopF o (fuel + 1) s =
      (true,
        { dispatch o (actOf a) (keyOf a) s with
          index := s.index + 1, timer := some (delayMs a) }) := by
  conv_lhs => rw [runLoopF]
  rw [h]
  simp [hr, hi, hk]

/-- The step loop leaves `actions`, `running`, `paused`, `loopChecked`
untouched and never decreases the index. -/
theorem runLoopF_frame (o : Oracle) :
    ∀ (fuel : Nat) (s : SchedState),
      (runLoopF o fuel s).2.actions = s.actions ∧
      (runLoopF o fuel s).2.running = s.running ∧
      (runLoopF o fuel s).2.paused = s.paused ∧
      (runLoopF o fuel s).2.loopChecked = s.loopChecked ∧
      s.index ≤ (runLoopF o fuel s).2.index := by
  intro fuel
  induction fuel with
  | zero => intro s; simp [runLoopF]
  | succ n ih =>
    intro s
    rcases hget : s.actions.get? s.index with _ | a
    · rw [runLoopF_stop_idx o n s hget]
      simp
    · by_cases h2 : s.running = true
      · by_cases h3 : a.hasInfo = true
        · rw [runLoopF_info o n s a hget h2 h3]
          have := ih { s with index := s.index + 1 }
          simp at this
          simp [this]
          omega
        · by_cases h4 : keyOf a = ""
          · rw [runLoopF_emptykey o n s a hget h2 (by simpa using h3) h4]
            have := ih
              { s with index := s.index + 1,
                       notes := s.notes ++ [emptyKeyMsg s.index] }
            simp at this
            simp [this]
            omega
          · rw [runLoopF_real o n s a hget h2 (by simpa using h3) h4]
            have := dispatch_frame o (actOf a) (keyOf a) s
            simp [this.1, this.2.2.1, this.2.2.2.1,
              this.2.2.2.2.2.1]
      · rw [runLoopF_stop_run o n s a hget (by simpa using h2)]
        simp

/-- The step loop keeps the index within the action-list length. -/
theorem runLoopF_index_le (o : Oracle) :
    ∀ (fuel : Nat) (s : SchedState), s.index ≤ s.actions.length →
      (runLoopF o fuel s).2.index ≤ s.actions.length := by
  intro fuel
  induction fuel with
  | zero => intro s h; simpa [runLoopF] using h
  | succ n ih =>
    intro s h
    rcases hget : s.actions.get? s.index with _ | a
    · rw [runLoopF_stop_idx o n s hget]
      simpa using h
    · have hlt : s.index < s.actions.length := by
        have := List.get?_eq_some.mp hget
        exact this.choose
      by_cases h2 : s.running = true
      · by_cases h3 : a.hasInfo = true
        · rw [runLoopF_info o n s a hget h2 h3]
          have := ih { s with index := s.index + 1 } (by simp; omega)
          simpa using this
        · by_cases h4 : keyOf a = ""
          · rw [runLoopF_emptykey o n s a hget h2 (by simpa using h3) h4]
            have := ih
              { s with index := s.index + 1,
                       notes := s.notes ++ [emptyKeyMsg s.index] }
              (by simp; omega)
            simpa using this
          · rw [runLoopF_real o n s a hget h2 (by simpa using h3) h4]
            simp
            omega
      · rw [runLoopF_stop_run o n s a hget (by simpa using h2)]
        simpa using h

/-- If the step loop returns (executed a real step), that step armed
the timer; otherwise the timer is untouched. -/
theorem runLoopF_timer (o : Oracle) :
    ∀ (fuel : Nat) (s : SchedState),
      ((runLoopF o fuel s).1 = true →
        ∃ d, (runLoopF o fuel s).2.timer = some d) ∧
      ((runLoopF o fuel s).1 = false →
        (runLoopF o fuel s).2.timer = s.timer) := by
  intro fuel
  induction fuel with
  | zero => intro s; simp [runLoopF]
  | succ n ih =>
    intro s
    rcases hget : s.actions.get? s.index with _ | a
    · rw [runLoopF_stop_idx o n s hget]
      simp
    · by_cases h2 : s.running = true
      · by_cases h3 : a.hasInfo = true
        · rw [runLoopF_info o n s a hget h2 h3]
          simpa using ih { s with index := s.index + 1 }
        · by_cases h4 : keyOf a = ""
          · rw [runLoopF_emptykey o n s a hget h2 (by simpa using h3) h4]
            simpa using ih
              { s with index := s.index + 1,
                       notes := s.notes ++ [emptyKeyMsg s.index] }
          · rw [runLoopF_real o n s a hget h2 (by simpa using h3) h4]
            simp
      · rw [runLoopF_stop_run o n s a hget (by simpa using h2)]
        simp

/-! ## The reachable-state invariant -/

/-- The inductive invariant of the scheduler: the index stays within
the action list; an idle scheduler holds no keys; an armed timer means
a running, unpaused session over a non-empty list; and a running
session has a non-empty list. -/
structure Inv (s : SchedState) : Prop where
  idx_le : s.index ≤ s.actions.length
  held_idle : s.running = false → s.heldKeys = []
  timer_run : ∀ d : Int, s.timer = some d →
    s.running = true ∧ s.paused = false ∧ s.actions ≠ []
  run_nonempty : s.running = true → s.actions ≠ []

theorem inv_init : Inv init := by
  constructor <;> simp [init]

theorem inv_release (s : SchedState) (h : Inv s) :
    Inv (release_all_keys s) := by
  obtain ⟨h1, h2, h3, h4⟩ := h
  constructor <;> simp [release_all_keys]
  · exact h1
  · intro d hd
    exact h3 d hd
  · exact h4

theorem inv_stop (s : SchedState) : Inv (stop_macro_op s) := by
  constructor <;> simp [stop_macro_op, release_all_keys]

theorem inv_pause (s : SchedState) (h : Inv s) :
    Inv (pause_macro_op s) := by
  obtain ⟨h1, h2, h3, h4⟩ := h
  by_cases hr : s.running = true
  · constructor <;> simp [pause_macro_op, release_all_keys, hr]
    · exact h1
    · exact h4 hr
  · simpa [pause_macro_op, hr] using ⟨h1, h2, h3, h4⟩

theorem inv_start (s : SchedState) (h : Inv s) :
    Inv (start_macro_timer s) := by
  obtain ⟨h1, h2, h3, h4⟩ := h
  by_cases hg : (!s.actions.isEmpty && s.running && !s.paused) = true
  · have hne : s.actions ≠ [] := by
      simp at hg
      simpa [List.isEmpty_iff] using hg.1.1
    have hr : s.running = true := by simp at hg; exact hg.1.2
    have hp : s.paused = false := by simp at hg; exact hg.2
    constructor <;> simp [start_macro_timer, hg]
    · exact h1
    · intro hfalse
      exact h2 hfalse
    · exact ⟨hr, hp, hne⟩
    · intro _
      exact hne
  · simpa [start_macro_timer, hg] using ⟨h1, h2, h3, h4⟩

theorem inv_setLoop (b : Bool) (s : SchedState) (h : Inv s) :
    Inv (setLoop b s) := by
  obtain ⟨h1, h2, h3, h4⟩ := h
  constructor <;> simp [setLoop]
  · exact h1
  · exact h2
  · intro d hd; exact h3 d hd
  · exact h4

theorem inv_play (l : Option LoadResult) (s : SchedState) (h : Inv s) :
    Inv (play_macro_op l s) := by
  obtain ⟨h1, h2, h3, h4⟩ := h
  by_cases hb1 : (s.running && s.paused) = true
  · have hr : s.running = true := by
      simp at hb1
      exact hb1.1
    rw [play_macro_op.eq_def]
    simp [hb1]
    apply inv_start
    constructor <;> simp
    · exact h1
    · intro hc
      exact h2 hc
    · intro d hd
      obtain ⟨ha, _, hc⟩ := h3 d hd
      exact ⟨ha, hc⟩
    · intro hc
      exact h4 hc
  · by_cases hb2 : (s.running && !s.paused) = true
    · rw [play_macro_op.eq_def]
      simp [hb1, hb2]
      exact ⟨h1, h2, h3, h4⟩
    · cases l with
      | none =>
        rw [play_macro_op]
        simp [hb1, hb2]
        exact ⟨h1, h2, h3, h4⟩
      | some lr =>
        cases lr with
        | failure e =>
          rw [play_macro_op]
          simp [hb1, hb2]
          constructor <;>
            simp [emit, stop_macro_op, release_all_keys]
        | notAList =>
          rw [play_macro_op]
          simp [hb1, hb2]
          constructor <;>
            simp [emit, stop_macro_op, release_all_keys]
        | ok acts =>
          by_cases hacts : acts.isEmpty = true
          · rw [play_macro_op]
            simp [hb1, hb2, hacts]
            constructor <;>
              simp [emit, stop_macro_op, release_all_keys]
          · rw [play_macro_op]
            simp [hb1, hb2, hacts]
            have hne : acts ≠ [] := by
              intro hc
              exact hacts (by simp [hc])
            apply inv_start
            constructor <;>
              simp [stop_macro_op, release_all_keys, hne]

theorem inv_fire (o : Oracle) (s : SchedState) (d : Int) (h : Inv s)
    (ht : s.timer = some d) : Inv (execute_macro_step o s) := by
  obtain ⟨hr, hp, hne⟩ := h.timer_run d ht
  unfold execute_macro_step
  rcases hres : runLoopF o (s.actions.length - s.index) s with ⟨b, s1⟩
  have hframe := runLoopF_frame o (s.actions.length - s.index) s
  have hidx := runLoopF_index_le o (s.actions.length - s.index) s h.idx_le
  have htimer := runLoopF_timer o (s.actions.length - s.index) s
  rw [hres] at hframe hidx htimer
  simp only at hframe hidx htimer
  have hs1run : s1.running = true := by rw [hframe.2.1, hr]
  have hs1paused : s1.paused = false := by rw [hframe.2.2.1, hp]
  have hs1act : s1.actions = s.actions := hframe.1
  cases b
  case true =>
    obtain ⟨d1, hd1⟩ := htimer.1 rfl
    constructor
    · rw [hs1act]
      exact hidx
    · intro hc
      rw [hs1run] at hc
      exact absurd hc (by simp)
    · intro d0 _
      refine ⟨hs1run, hs1paused, ?_⟩
      rw [hs1act]
      exact hne
    · intro _
      rw [hs1act]
      exact hne
  case false =>
    have hs1timer : s1.timer = s.timer := htimer.2 rfl
    unfold after_loop
    by_cases hend : s1.actions.length ≤ s1.index
    · simp only [hend, if_true]
      by_cases hlc : s1.loopChecked = true
      · simp only [hlc, if_true]
        apply inv_start
        constructor
        · simp
        · intro hc
          simp at hc
          rw [hs1run] at hc
          exact absurd hc (by simp)
        · intro d0 hd0
          simp at hd0 ⊢
          refine ⟨hs1run, hs1paused, ?_⟩
          rw [hs1act]
          exact hne
        · intro _
          simp
          rw [hs1act]
          exact hne
      · simp only [hlc, if_false]
        exact inv_stop s1
    · simp only [hend, if_false]
      constructor
      · rw [hs1act]
        exact hidx
      · intro hc
        rw [hs1run] at hc
        exact absurd hc (by simp)
      · intro d0 _
        refine ⟨hs1run, hs1paused, ?_⟩
        rw [hs1act]
        exact hne
      · intro _
        rw [hs1act]
        exact hne

/-- Every reachable scheduler state satisfies the invariant. -/
theorem reachable_inv (s : SchedState) (h : Reachable s) : Inv s := by
  induction h with
  | init => exact inv_init
  | play l s h ih => exact inv_play l s ih
  | pause s h ih => exact inv_pause s ih
  | stop s h ih => exact inv_stop s
  | fire o s d h ht ih => exact inv_fire o s d ih ht
  | toggleLoop b s h ih => exact inv_setLoop b s ih
  | hideWin s h ih => exact inv_release s ih
  | closeWin s h ih =>
    unfold close_event
    exact inv_release _ (inv_stop s)

/-! ## Unfolding `execute_macro_step` -/

/-- When the current step is a real key step, one fire executes exactly
it: dispatch, index + 1, timer armed with this step's delay. -/
theorem execute_real (o : Oracle) (s : SchedState) (a : Action)
    (hget : s.actions.get? s.index = some a) (hr : s.running = true)
    (hi : a.hasInfo = false) (hk : ¬ keyOf a = "") :
    execute_macro_step o s =
      { dispatch o (actOf a) (keyOf a) s with
        index := s.index + 1, timer := some (delayMs a) } := by
  have hlt : s.index < s.actions.length :=
    (List.get?_eq_some.mp hget).choose
  have hfuel : s.actions.length - s.index =
      (s.actions.length - s.index - 1) + 1 := by omega
  unfold execute_macro_step
  rw [hfuel, runLoopF_real o _ s a hget hr hi hk]

/-- When the index has already reached the end of the list, a fire goes
straight to the end-of-sequence handling. -/
theorem execute_at_end (o : Oracle) (s : SchedState)
    (hend : s.actions.length ≤ s.index) :
    execute_macro_step o s = after_loop s := by
  unfold execute_macro_step
  have h0 : s.actions.length - s.index = 0 := by omega
  rw [h0]
  simp [runLoopF]

/-- The injector operation the dispatch chain selects for a given
action string (meaningful for the three recognised kinds). -/
def opOf (act : String) : InjOp :=
  if act = "press" then InjOp.press
  else if act = "release" then InjOp.release
  else InjOp.pressAndRelease

/-! ## Claims -/

/-- C8: calling play while a session is Playing (running and not
paused) is a no-op: the entire scheduler state — session, index,
actions, traces — is unchanged, whatever selection/load the call
carries. -/
theorem C8_play_while_playing_noop (l : Option LoadResult)
    (s : SchedState) (hr : s.running = true) (hp : s.paused = false) :
    play_macro_op l s = s := by
  rw [play_macro_op.eq_def]
  simp [hr, hp]

/-- C8 witness at a concrete playing state. -/
def c8a : Action := ⟨false, some "press", some "x", some (some 10)⟩

def c8s : SchedState :=
  play_macro_op (some (LoadResult.ok [c8a])) init

theorem C8_witness : play_macro_op none c8s = c8s :=
  C8_play_while_playing_noop none c8s (by decide) (by decide)

/-- C9: pause is idempotent on every scheduler state: a second
consecutive pause leaves the state (flags, timer, index, held keys, and
both observation traces) exactly as the first left it; in particular
the second call performs no injector release and surfaces no error. -/
theorem C9_pause_idempotent (s : SchedState) :
    pause_macro_op (pause_macro_op s) = pause_macro_op s := by
  by_cases hr : s.running = true
  · simp [pause_macro_op, release_all_keys, hr]
  · simp [pause_macro_op, hr]

/-- Concrete playing state with a held key, for exercising pause
idempotence. -/
def c9a : Action := ⟨false, some "press", some "z", some (some 10)⟩

def c9s : SchedState :=
  execute_macro_step okOracle
    (play_macro_op (some (LoadResult.ok [c9a])) init)

theorem C9_witness :
    pause_macro_op (pause_macro_op c9s) = pause_macro_op c9s :=
  C9_pause_idempotent c9s

/-- C5: a loaded input that is not a list, or is an empty list, is
rejected by play wholesale: the scheduler ends Idle — not running, no
actions stored, index 0, not paused — and its timer is stopped, so no
step of that input can ever fire. -/
theorem C5_reject_nonlist_or_empty (s : SchedState) (lr : LoadResult)
    (hr : s.running = false)
    (h : lr = LoadResult.notAList ∨ lr = LoadResult.ok []) :
    (play_macro_op (some lr) s).running = false ∧
    (play_macro_op (some lr) s).actions = [] ∧
    (play_macro_op (some lr) s).index = 0 ∧
    (play_macro_op (some lr) s).paused = false ∧
    (play_macro_op (some lr) s).timer = none := by
  rcases h with h | h <;> subst h <;>
    simp [play_macro_op, hr, emit, stop_macro_op, release_all_keys]

theorem C5_witness :
    (play_macro_op (some LoadResult.notAList) init).running = false ∧
    (play_macro_op (some LoadResult.notAList) init).actions = [] ∧
    (play_macro_op (some LoadResult.notAList) init).index = 0 ∧
    (play_macro_op (some LoadResult.notAList) init).paused = false ∧
    (play_macro_op (some LoadResult.notAList) init).timer = none :=
  C5_reject_nonlist_or_empty init LoadResult.notAList (by decide)
    (Or.inl rfl)

/-- C7: after executing the real step at the current index, the timer
interval armed for the next fire is that step's own delay (the step
just consumed); and any step whose delay field is absent or unparsable
yields exactly 100ms. -/
theorem C7_delay_of_current_step (o : Oracle) (s : SchedState)
    (a : Action) (hget : s.actions.get? s.index = some a)
    (hr : s.running = true) (hi : a.hasInfo = false)
    (hk : ¬ keyOf a = "") :
    (execute_macro_step o s).timer = some (delayMs a) ∧
    (∀ b : Action, b.delay = none ∨ b.delay = some none →
      delayMs b = 100) := by
  refine ⟨?_, ?_⟩
  · rw [execute_real o s a hget hr hi hk]
  · intro b hb
    rcases hb with h | h <;> simp [delayMs, h]

/-- C7 witness: a two-step sequence whose steps carry different delays
(step 0: 70ms, step 1: 30ms); the fire that consumes step 0 arms 70ms,
not step 1's 30ms; plus the two fallback cases. -/
def c7a : Action := ⟨false, some "send", some "a", some (some 70)⟩

def c7b : Action := ⟨false, some "send", some "b", some (some 30)⟩

def c7s : SchedState :=
  play_macro_op (some (LoadResult.ok [c7a, c7b])) init

theorem C7_witness :
    (execute_macro_step okOracle c7s).timer = some (delayMs c7a) ∧
    delayMs c7a = 70 ∧ delayMs c7b = 30 ∧
    delayMs ⟨false, some "send", some "a", none⟩ = 100 ∧
    delayMs ⟨false, some "send", some "a", some none⟩ = 100 := by
  have h := C7_delay_of_current_step okOracle c7s c7a (by decide)
    (by decide) (by decide) (by decide)
  exact ⟨h.1, by decide, by decide,
    h.2 ⟨false, some "send", some "a", none⟩ (Or.inl rfl),
    h.2 ⟨false, some "send", some "a", some none⟩ (Or.inr rfl)⟩

/-- C10: a step with no action/kind field (key non-empty, no info
annotation) is treated as a Send: the injector press-and-release is
invoked for the key, the held-key set is unchanged (whether or not the
call fails), and the index advances — the step is neither rejected nor
skipped. -/
theorem C10_missing_kind_is_send (o : Oracle) (s : SchedState)
    (a : Action) (hget : s.actions.get? s.index = some a)
    (hr : s.running = true) (hi : a.hasInfo = false)
    (hact : a.act = none) (hk : ¬ keyOf a = "") :
    (execute_macro_step o s).injCalls =
      s.injCalls ++ [(InjOp.pressAndRelease, keyOf a)] ∧
    (execute_macro_step o s).heldKeys = s.heldKeys ∧
    (execute_macro_step o s).index = s.index + 1 := by
  have hsend : actOf a = "send" := by
    simp only [actOf, hact, Option.getD]
    decide
  rw [execute_real o s a hget hr hi hk]
  cases hcall : o InjOp.pressAndRelease (keyOf a) <;>
    simp [dispatch, hsend, hcall, emit]

/-- C10 witness: a kind-less step with key "q". -/
def c10a : Action := ⟨false, none, some "q", some (some 10)⟩

def c10s : SchedState :=
  play_macro_op (some (LoadResult.ok [c10a])) init

theorem C10_witness :
    (execute_macro_step okOracle c10s).injCalls =
      c10s.injCalls ++ [(InjOp.pressAndRelease, keyOf c10a)] ∧
    (execute_macro_step okOracle c10s).heldKeys = c10s.heldKeys ∧
    (execute_macro_step okOracle c10s).index = c10s.index + 1 :=
  C10_missing_kind_is_send okOracle c10s c10a (by decide) (by decide)
    (by decide) rfl (by decide)

/-- C1: in every reachable scheduler state, the held-key set is empty
immediately after a pause or stop call returns; the emergency-release
operation (`release_all_keys`) attempts an injector release for every
currently held key — its state effect is independent of the calls'
outcomes, the source ignoring each failure with `except: pass` — and
clears the set unconditionally. -/
theorem C1_held_empty_after_pause_stop (s : SchedState)
    (h : Reachable s) :
    (pause_macro_op s).heldKeys = [] ∧
    (stop_macro_op s).heldKeys = [] ∧
    (release_all_keys s).heldKeys = [] ∧
    (release_all_keys s).injCalls =
      s.injCalls ++ s.heldKeys.map (fun k => (InjOp.release, k)) := by
  refine ⟨?_, by simp [stop_macro_op, release_all_keys],
    by simp [release_all_keys], by simp [release_all_keys]⟩
  by_cases hr : s.running = true
  · simp [pause_macro_op, hr, release_all_keys]
  · have hheld := (reachable_inv s h).held_idle (by simpa using hr)
    simp [pause_macro_op, hr, hheld]

/-- C1 witness: a reachable state actually holding a key ("x" is down
after the first fire of a one-step Press macro). -/
def c1a : Action := ⟨false, some "press", some "x", some (some 10)⟩

def c1play : SchedState :=
  play_macro_op (some (LoadResult.ok [c1a])) init

def c1s : SchedState := execute_macro_step okOracle c1play

theorem c1s_reachable : Reachable c1s :=
  Reachable.fire okOracle c1play 10
    (Reachable.play (some (LoadResult.ok [c1a])) init Reachable.init)
    (by decide)

theorem C1_witness :
    (pause_macro_op c1s).heldKeys = [] ∧
    (stop_macro_op c1s).heldKeys = [] ∧
    (release_all_keys c1s).heldKeys = [] ∧
    (release_all_keys c1s).injCalls =
      c1s.injCalls ++ c1s.heldKeys.map (fun k => (InjOp.release, k)) :=
  C1_held_empty_after_pause_stop c1s c1s_reachable

/-- C6: in every reachable state the index never exceeds the number of
actions; and when the timer fires with the index at the end, the next
observable state is either index 0 with playback continuing (loop
toggle checked) or Idle with the session discarded (loop toggle
unchecked). -/
theorem C6_index_bounded_and_wrap (o : Oracle) (s : SchedState)
    (h : Reachable s) :
    s.index ≤ s.actions.length ∧
    (∀ d : Int, s.timer = some d → s.index = s.actions.length →
      (s.loopChecked = true →
        (execute_macro_step o s).index = 0 ∧
        (execute_macro_step o s).running = true ∧
        (execute_macro_step o s).timer ≠ none) ∧
      (s.loopChecked = false →
        (execute_macro_step o s).running = false ∧
        (execute_macro_step o s).actions = [] ∧
        (execute_macro_step o s).index = 0 ∧
        (execute_macro_step o s).timer = none ∧
        (execute_macro_step o s).heldKeys = [])) := by
  have hinv := reachable_inv s h
  refine ⟨hinv.idx_le, ?_⟩
  intro d ht hend
  obtain ⟨hr, hp, hne⟩ := hinv.timer_run d ht
  have hie : s.actions.isEmpty = false := by
    simp [List.isEmpty_iff]
    exact hne
  have hx : execute_macro_step o s = after_loop s :=
    execute_at_end o s (le_of_eq hend.symm)
  rw [hx]
  unfold after_loop
  rw [if_pos (le_of_eq hend.symm)]
  constructor
  · intro hlc
    rw [if_pos hlc]
    refine ⟨?_, ?_, ?_⟩ <;> simp [start_macro_timer, hie, hr, hp]
  · intro hlc
    rw [if_neg (by simp [hlc])]
    refine ⟨?_, ?_, ?_, ?_, ?_⟩ <;>
      simp [stop_macro_op, release_all_keys]

/-- C6 witness: one-step Send macro with loop on; after the first fire
the index sits at the length with the timer armed; the wrap fire
restarts at index 0 still playing. -/
def c6a : Action := ⟨false, some "send", some "enter", some (some 10)⟩

def c6play : SchedState :=
  play_macro_op (some (LoadResult.ok [c6a])) (setLoop true init)

def c6s : SchedState := execute_macro_step okOracle c6play

theorem c6s_reachable : Reachable c6s :=
  Reachable.fire okOracle c6play 10
    (Reachable.play (some (LoadResult.ok [c6a])) (setLoop true init)
      (Reachable.toggleLoop true init Reachable.init))
    (by decide)

theorem C6_witness :
    c6s.index ≤ c6s.actions.length ∧
    ((execute_macro_step okOracle c6s).index = 0 ∧
     (execute_macro_step okOracle c6s).running = true ∧
     (execute_macro_step okOracle c6s).timer ≠ none) :=
  ⟨(C6_index_bounded_and_wrap okOracle c6s c6s_reachable).1,
   ((C6_index_bounded_and_wrap okOracle c6s c6s_reachable).2 10
     (by decide) (by decide)).1 (by decide)⟩

/-- C3: when the injector call of the current real step fails (raises),
the failure is caught at the step boundary and reported as one notifier
warning, and playback continues: the index still advances and the next
timer fire is still scheduled with this step's delay. -/
theorem C3_injector_failure_nonfatal (o : Oracle) (s : SchedState)
    (a : Action) (e : String)
    (hget : s.actions.get? s.index = some a) (hr : s.running = true)
    (hi : a.hasInfo = false) (hk : ¬ keyOf a = "")
    (hop : actOf a = "press" ∨ actOf a = "release" ∨ actOf a = "send")
    (hfail : o (opOf (actOf a)) (keyOf a) = some e) :
    (execute_macro_step o s).notes =
      s.notes ++ ["Macro step error: " ++ e] ∧
    (execute_macro_step o s).index = s.index + 1 ∧
    (execute_macro_step o s).running = true ∧
    (execute_macro_step o s).timer = some (delayMs a) := by
  rw [execute_real o s a hget hr hi hk]
  rcases hop with h | h | h <;>
    rw [h] at hfail ⊢ <;>
    simp [opOf] at hfail <;>
    simp [dispatch, hfail, emit, hr]

/-- C3 witness: a Press step whose injection raises. -/
def c3oracle : Oracle := fun _ _ => some "boom"

def c3a : Action := ⟨false, some "press", some "x", some (some 10)⟩

def c3s : SchedState :=
  play_macro_op (some (LoadResult.ok [c3a])) init

theorem C3_witness :
    (execute_macro_step c3oracle c3s).notes =
      c3s.notes ++ ["Macro step error: boom"] ∧
    (execute_macro_step c3oracle c3s).index = c3s.index + 1 ∧
    (execute_macro_step c3oracle c3s).running = true ∧
    (execute_macro_step c3oracle c3s).timer = some (delayMs c3a) :=
  C3_injector_failure_nonfatal c3oracle c3s c3a "boom" (by decide)
    (by decide) (by decide) (by decide) (Or.inl (by decide)) (by decide)

/-- Scenario C setup: Press "x" then Press "". -/
def c4x : Action := ⟨false, some "press", some "x", some (some 10)⟩

def c4e : Action := ⟨false, some "press", some "", some (some 10)⟩

def c4fire1 : SchedState :=
  execute_macro_step okOracle
    (play_macro_op (some (LoadResult.ok [c4x, c4e])) init)

def c4loop : Bool × SchedState :=
  runLoopF okOracle (c4fire1.actions.length - c4fire1.index) c4fire1

/-- C4: a step whose key is empty is skipped with exactly one notifier
warning and no injector call, the index advancing past it (the loop
equation shows the step contributes exactly the warning and the
increment); and in the concrete two-step run Press "x" then Press "",
at the point where the step-processing loop of the second fire has
processed both steps, the held-key set contains only "x", the index has
advanced past both steps, exactly one warning was emitted, and the only
injector call made was the press of "x".  (The same fire then runs the
end-of-sequence handling, which is claim C6's subject.) -/
theorem C4_empty_key_skipped (o : Oracle) (fuel : Nat) (s : SchedState)
    (a : Action) (hget : s.actions.get? s.index = some a)
    (hr : s.running = true) (hi : a.hasInfo = false)
    (hk : keyOf a = "") :
    (runLoopF o (fuel + 1) s =
      runLoopF o fuel
        { s with index := s.index + 1,
                 notes := s.notes ++ [emptyKeyMsg s.index] }) ∧
    c4loop.2.heldKeys = ["x"] ∧
    c4loop.2.index = 2 ∧
    c4loop.2.notes = c4fire1.notes ++ [emptyKeyMsg 1] ∧
    c4loop.2.injCalls = c4fire1.injCalls ∧
    c4fire1.heldKeys = ["x"] :=
  ⟨runLoopF_emptykey o fuel s a hget hr hi hk, by decide, by decide,
    by decide, by decide, by decide⟩

theorem C4_witness :
    (runLoopF okOracle (0 + 1) c4fire1 =
      runLoopF okOracle 0
        { c4fire1 with index := c4fire1.index + 1,
                       notes := c4fire1.notes ++
                         [emptyKeyMsg c4fire1.index] }) ∧
    c4loop.2.heldKeys = ["x"] ∧
    c4loop.2.index = 2 ∧
    c4loop.2.notes = c4fire1.notes ++ [emptyKeyMsg 1] ∧
    c4loop.2.injCalls = c4fire1.injCalls ∧
    c4fire1.heldKeys = ["x"] :=
  C4_empty_key_skipped okOracle 0 c4fire1 c4e (by decide) (by decide)
    (by decide) (by decide)

/-- Counterexample setup for C2: a one-step Send macro started with the
loop toggle on, so the play-time snapshot is `macroLoop = true`. -/
def c2act : Action := ⟨false, some "send", some "a", some (some 10)⟩

def c2start : SchedState :=
  play_macro_op (some (LoadResult.ok [c2act])) (setLoop true init)

def c2mid : SchedState := execute_macro_step okOracle c2start

/-- C2 counterexample.  The claim says the wrap decision at the end of
the sequence uses the loop value snapshotted at play time
(`macro_loop`), so a mid-run toggle cannot change whether the sequence
wraps.  Concretely: start a one-step Send macro with the toggle on
(snapshot `macroLoop = true`).  Run A (no mid-run toggle): the wrap
fire restarts at index 0, still playing.  Run B (toggle switched off
mid-run, snapshot still `true`): the wrap fire stops the session
instead.  The toggle change changed the wrap outcome even though the
snapshot never changed — the code at line 1040 of `src/Main.py` reads
`self.loop_toggle.isChecked()` live and never reads `self.macro_loop`. -/
theorem C2_cex :
    c2start.macroLoop = true ∧ c2start.running = true ∧
    c2mid.running = true ∧ c2mid.index = c2mid.actions.length ∧
    (execute_macro_step okOracle c2mid).index = 0 ∧
    (execute_macro_step okOracle c2mid).running = true ∧
    (setLoop false c2mid).macroLoop = true ∧
    (execute_macro_step okOracle (setLoop false c2mid)).running = false ∧
    (execute_macro_step okOracle (setLoop false c2mid)).actions = [] := by
  decide

/-- C2 (amended): `macro_loop` is snapshotted from the loop toggle when
play starts a session, but the snapshot is never consulted afterwards:
the wrap decision when the index reaches the end of the action list
re-reads the live loop toggle, so toggling the loop control mid-session
does change whether the sequence wraps.  Formally: at a wrap point the
result of the fire follows the toggle value `b` just set, whatever the
snapshot holds, while `setLoop` leaves the snapshot untouched. -/
theorem C2_wrap_reads_live_toggle (o : Oracle) (s : SchedState)
    (b : Bool) (hr : s.running = true) (hp : s.paused = false)
    (hend : s.index = s.actions.length) (hne : s.actions ≠ []) :
    (setLoop b s).macroLoop = s.macroLoop ∧
    (execute_macro_step o (setLoop b s)).index = 0 ∧
    (execute_macro_step o (setLoop b s)).running = b := by
  have hie : s.actions.isEmpty = false := by
    simp [List.isEmpty_iff]
    exact hne
  have hx : execute_macro_step o (setLoop b s) =
      after_loop (setLoop b s) := by
    apply execute_at_end
    simp [setLoop]
    omega
  refine ⟨by simp [setLoop], ?_⟩
  rw [hx]
  unfold after_loop
  rw [if_pos (by simp [setLoop]; omega)]
  cases b
  · rw [if_neg (by simp [setLoop])]
    simp [stop_macro_op, release_all_keys]
  · rw [if_pos (by simp [setLoop])]
    simp [start_macro_timer, setLoop, hie, hr, hp]

theorem C2_wrap_witness :
    (setLoop false c2mid).macroLoop = c2mid.macroLoop ∧
    (execute_macro_step okOracle (setLoop false c2mid)).index = 0 ∧
    (execute_macro_step okOracle (setLoop false c2mid)).running = false :=
  C2_wrap_reads_live_toggle okOracle c2mid false (by decide) (by decide)
    (by decide) (by decide)

end Maina
